import Mathlib

/-!
Verification development for a crypto-dashboard pipeline (main.py):
a fetcher over an external price source, a per-symbol summarizer, a
combiner for export, and a process-wide snapshot updated by the GUI
callback `display_crypto_data`.

The external call `yf.download(sym, period, interval, ...)` is modelled
by an oracle parameter `download : String → String → String → Option (List Obs)`;
`none` stands for a raised exception or a `None` return, `some rows` for a
successfully returned frame with the given rows (possibly zero of them).
Prices are modelled as rationals.
-/

/-- One observation returned by the data source: a timestamp and a closing
price.  Other OHLCV columns play no role in the pipeline and are omitted. -/
structure Obs where
  ts : Nat
  close : ℚ
deriving Repr, DecidableEq

/-- One row of a stored per-symbol frame after `data["Symbol"] = sym`:
the observation plus the symbol tag column. -/
structure TaggedRow where
  ts : Nat
  close : ℚ
  symbol : String
deriving Repr, DecidableEq

/-- A per-symbol frame held in the fetch result. -/
abbrev Series := List TaggedRow

/-- The fetch result: a Python dict from symbol to frame, modelled as an
association list in insertion order. -/
abbrev FetchResult := List (String × Series)

/-- `data["Symbol"] = sym`: tag every row of a downloaded frame. -/
def tagSymbol (sym : String) (data : List Obs) : Series :=
  data.map (fun o => { ts := o.ts, close := o.close, symbol := sym })

/-- Python dict assignment `d[k] = v`: replace the value at an existing key
in place, otherwise append the new binding at the end. -/
def dictInsert (d : FetchResult) (k : String) (v : Series) : FetchResult :=
  match d with
  | [] => [(k, v)]
  | (k', v') :: rest =>
      if k' = k then (k, v) :: rest else (k', v') :: dictInsert rest k v

/-- One iteration of the fetch loop (main.py lines 16-25): call the source
for one symbol; on exception leave the dict unchanged (the error is only
printed); if the returned frame is non-empty, tag it with the symbol column
and store it. -/
def fetchLoopBody (download : String → String → String → Option (List Obs))
    (period : String) (interval : String)
    (data_dict : FetchResult) (sym : String) : FetchResult :=
  match download sym period interval with
  | none => data_dict
  | some data =>
      if data.isEmpty then data_dict
      else dictInsert data_dict sym (tagSymbol sym data)

/-- `fetch_crypto_data(symbols, period, interval)` from main.py lines 14-26:
run the fetch loop over the requested symbols, starting from an empty dict. -/
def fetch_crypto_data (download : String → String → String → Option (List Obs))
    (symbols : List String) (period : String) (interval : String) : FetchResult :=
  symbols.foldl (fetchLoopBody download period interval) []

/-- First closing price of a frame, `data["Close"].to_numpy().flatten()[0]`. -/
def firstClose (v : Series) : ℚ :=
  (v.head?.map TaggedRow.close).getD 0

/-- Last closing price of a frame, `data["Close"].to_numpy().flatten()[-1]`. -/
def lastClose (v : Series) : ℚ :=
  (v.getLast?.map TaggedRow.close).getD 0

/-- The exact percent change `((end_price - start_price) / start_price) * 100`
computed on unrounded prices. -/
def pctChange (v : Series) : ℚ :=
  (lastClose v - firstClose v) / firstClose v * 100

/-- Floor of a rational, written so that it evaluates by kernel reduction. -/
def ratFloor (q : ℚ) : ℤ :=
  q.num.fdiv q.den

/-- Round to the nearest integer, ties to even, as Python's `round` and
format specifiers do. -/
def roundHalfEven (q : ℚ) : ℤ :=
  let f := ratFloor q
  let r := q - f
  if r < 1 / 2 then f
  else if 1 / 2 < r then f + 1
  else if 2 ∣ f then f else f + 1

/-- Python `round(x, 2)`. -/
def pyRound2 (q : ℚ) : ℚ :=
  (roundHalfEven (q * 100) : ℚ) / 100

/-- Python `f"{x:.2f}%"`: the value rounded to two decimals and rendered
with exactly two fractional digits, followed by a percent sign. -/
def fmt2pct (q : ℚ) : String :=
  let n := roundHalfEven (q * 100)
  let sign := if n < 0 then "-" else ""
  let a := n.natAbs
  let ip := a / 100
  let fp := a % 100
  sign ++ toString ip ++ "." ++ (if fp < 10 then "0" else "") ++ toString fp ++ "%"

/-- A row of the summary table, as appended in main.py lines 144-149:
the symbol, the two prices rounded for display, and the formatted
percent-change string. -/
structure SummaryRow where
  symbol : String
  startPrice : ℚ
  endPrice : ℚ
  pctStr : String
deriving Repr, DecidableEq

/-- The body of the summary loop (main.py lines 131-151) for one
`(sym, data)` pair: skip empty frames, skip a zero start price, otherwise
build the display row.  (Every modelled frame has a Close column, so the
`"Close" not in data` guard never fires here.) -/
def summaryRow? (sym : String) (data : Series) : Option SummaryRow :=
  if data.isEmpty then none
  else if firstClose data = 0 then none
  else some
    { symbol := sym
      startPrice := pyRound2 (firstClose data)
      endPrice := pyRound2 (lastClose data)
      pctStr := fmt2pct (pctChange data) }

/-- The summary table built by the loop over `combined_data.items()`. -/
def summaryRows (R : FetchResult) : List SummaryRow :=
  R.filterMap (fun p => summaryRow? p.1 p.2)

/-- A row of the exported full-history CSV after `reset_index`: the
timestamp materialized as an explicit column, the observation fields,
and the symbol tag. -/
structure CsvRow where
  ts : Nat
  close : ℚ
  symbol : String
deriving Repr, DecidableEq

/-- `pd.concat(latest_combined_data.values())`: concatenate every stored
frame in dict-iteration order. -/
def combine (R : FetchResult) : List TaggedRow :=
  (R.map Prod.snd).flatten

/-- `combined_df.reset_index(inplace=True)`: materialize the time index of
the freshly concatenated frame as an explicit column. -/
def reset_index (rows : List TaggedRow) : List CsvRow :=
  rows.map (fun r => { ts := r.ts, close := r.close, symbol := r.symbol })

/-- Python `s.strip()` on the underlying character list: drop leading and
trailing whitespace. -/
def stripChars (l : List Char) : List Char :=
  ((l.dropWhile Char.isWhitespace).reverse.dropWhile Char.isWhitespace).reverse

/-- Python `s.strip()`. -/
def pyStrip (s : String) : String :=
  { data := stripChars s.data }

/-- main.py line 94: `[s.strip() for s in crypto_entry.get().split(",") if s.strip()]`. -/
def parseSymbols (raw : String) : List String :=
  ((raw.splitOn ",").map pyStrip).filter (fun s => s ≠ "")

/-- The two module-level snapshot holders (main.py lines 32-33). -/
structure AppState where
  latest_summary_df : Option (List SummaryRow)
  latest_combined_data : Option FetchResult
deriving Repr, DecidableEq

/-- The user-visible outcome of one `display_crypto_data` invocation:
which message box (if any) ended the run early. -/
inductive Msg where
  | inputError
  | fetchError
  | noSummary
  | ok
deriving Repr, DecidableEq

/-- `display_crypto_data` (main.py lines 91-191) restricted to its pipeline
effect: parse the symbol entry, reject blank input, fetch, store the combined
snapshot, build the summary table, store it when non-empty.  The returned
triple is the new snapshot state, the message shown, and the symbol list
passed to the fetcher (`none` when the fetcher was never invoked). -/
def display_crypto_data (download : String → String → String → Option (List Obs))
    (raw : String) (period : String) (interval : String) (st : AppState) :
    AppState × Msg × Option (List String) :=
  let symbols := parseSymbols raw
  if symbols.isEmpty then
    (st, Msg.inputError, none)
  else
    let combined_data := fetch_crypto_data download symbols period interval
    if combined_data.isEmpty then
      (st, Msg.fetchError, some symbols)
    else
      let summary_data := summaryRows combined_data
      if summary_data.isEmpty then
        ({ st with latest_combined_data := some combined_data }, Msg.noSummary, some symbols)
      else
        ({ latest_summary_df := some summary_data,
           latest_combined_data := some combined_data }, Msg.ok, some symbols)

/-- The header row written by the summary export. -/
def summaryHeader : List String :=
  ["Symbol", "Start Price", "End Price", "% Change"]

/-- `export_summary_to_csv` (main.py lines 39-58): refuse when no summary
exists or it is empty, refuse when the save dialog is cancelled (`none`),
otherwise write the stored summary table.  Returns the written file
content (header plus rows) and the state after the call. -/
def export_summary_to_csv (st : AppState) (file_path : Option String) :
    Option (List String × List SummaryRow) × AppState :=
  match st.latest_summary_df with
  | none => (none, st)
  | some df =>
      if df.isEmpty then (none, st)
      else
        match file_path with
        | none => (none, st)
        | some _ => (some (summaryHeader, df), st)

/-- `export_full_data_to_csv` (main.py lines 64-85): refuse when no combined
snapshot exists, refuse when the save dialog is cancelled, otherwise
concatenate the stored frames into a fresh frame (`pd.concat` copies its
inputs), materialize its index, and write it.  Returns the written rows and
the state after the call. -/
def export_full_data_to_csv (st : AppState) (file_path : Option String) :
    Option (List CsvRow) × AppState :=
  match st.latest_combined_data with
  | none => (none, st)
  | some R =>
      match file_path with
      | none => (none, st)
      | some _ =>
          let combined_df := combine R
          let combined_df := reset_index combined_df
          (some combined_df, st)

/-- States the application can be in: the initial state (both holders
`None`), followed by any sequence of fetch-button and export-button
presses. -/
inductive Reachable : AppState → Prop where
  | init : Reachable { latest_summary_df := none, latest_combined_data := none }
  | fetchStep (download : String → String → String → Option (List Obs))
      (raw period interval : String) {st : AppState} :
      Reachable st → Reachable (display_crypto_data download raw period interval st).1
  | exportSummaryStep (file_path : Option String) {st : AppState} :
      Reachable st → Reachable (export_summary_to_csv st file_path).2
  | exportFullStep (file_path : Option String) {st : AppState} :
      Reachable st → Reachable (export_full_data_to_csv st file_path).2

/-- A concrete source for examples: symbol `"AAA"` has closes 10, 12, 15;
every other symbol raises. -/
def oracleA : String → String → String → Option (List Obs) := fun sym _ _ =>
  if sym = "AAA" then some [{ ts := 0, close := 10 }, { ts := 1, close := 12 }, { ts := 2, close := 15 }]
  else none

/-- A concrete source for examples: symbol `"ZZZ"` has closes 0, 5 (a zero
start price); every other symbol raises. -/
def oracleZ : String → String → String → Option (List Obs) := fun sym _ _ =>
  if sym = "ZZZ" then some [{ ts := 0, close := 0 }, { ts := 1, close := 5 }]
  else none

/-- A concrete source for examples: `"AAA"` as in `oracleA`, `"ONE"` has the
single close 7, `"BBB"` raises. -/
def oracleAB : String → String → String → Option (List Obs) := fun sym _ _ =>
  if sym = "AAA" then some [{ ts := 0, close := 10 }, { ts := 1, close := 12 }, { ts := 2, close := 15 }]
  else if sym = "ONE" then some [{ ts := 0, close := 7 }]
  else none

/-! ### Helper lemmas on the dict operations and the fetch loop -/

theorem dictInsert_mem {d : FetchResult} {k : String} {v : Series} {p : String × Series}
    (h : p ∈ dictInsert d k v) : p = (k, v) ∨ p ∈ d := by
  induction d with
  | nil => simpa [dictInsert] using h
  | cons q rest ih =>
      obtain ⟨k', v'⟩ := q
      by_cases hk : k' = k
      · simp only [dictInsert, if_pos hk, List.mem_cons] at h
        rcases h with h | h
        · exact Or.inl h
        · exact Or.inr (List.mem_cons_of_mem _ h)
      · simp only [dictInsert, if_neg hk, List.mem_cons] at h
        rcases h with h | h
        · exact Or.inr (h ▸ List.mem_cons_self _ _)
        · rcases ih h with h | h
          · exact Or.inl h
          · exact Or.inr (List.mem_cons_of_mem _ h)

theorem dictInsert_self_mem (d : FetchResult) (k : String) (v : Series) :
    (k, v) ∈ dictInsert d k v := by
  induction d with
  | nil => simp [dictInsert]
  | cons q rest ih =>
      obtain ⟨k', v'⟩ := q
      by_cases hk : k' = k
      · simp [dictInsert, if_pos hk]
      · simp only [dictInsert, if_neg hk, List.mem_cons]
        exact Or.inr ih

theorem dictInsert_mem_of_ne {d : FetchResult} {s k : String} {w v : Series}
    (h : (s, w) ∈ d) (hne : s ≠ k) : (s, w) ∈ dictInsert d k v := by
  induction d with
  | nil => simp at h
  | cons q rest ih =>
      obtain ⟨k', v'⟩ := q
      by_cases hk : k' = k
      · simp only [dictInsert, if_pos hk, List.mem_cons]
        rcases List.mem_cons.mp h with h | h
        · cases h
          exact absurd hk hne
        · exact Or.inr h
      · simp only [dictInsert, if_neg hk, List.mem_cons]
        rcases List.mem_cons.mp h with h | h
        · exact Or.inl h
        · exact Or.inr (ih h)

theorem dictInsert_keys (d : FetchResult) (k : String) (v : Series) :
    (dictInsert d k v).map Prod.fst =
      if k ∈ d.map Prod.fst then d.map Prod.fst else d.map Prod.fst ++ [k] := by
  induction d with
  | nil => simp [dictInsert]
  | cons q rest ih =>
      obtain ⟨k', v'⟩ := q
      by_cases hk : k' = k
      · subst hk
        simp [dictInsert]
      · simp only [dictInsert, if_neg hk, List.map_cons, ih]
        by_cases hmem : k ∈ rest.map Prod.fst
        · simp [hmem, Ne.symm hk]
        · simp [hmem, Ne.symm hk]

theorem dictInsert_keys_nodup {d : FetchResult} (k : String) (v : Series)
    (h : (d.map Prod.fst).Nodup) : ((dictInsert d k v).map Prod.fst).Nodup := by
  rw [dictInsert_keys]
  by_cases hmem : k ∈ d.map Prod.fst
  · simpa [hmem] using h
  · simpa [hmem, List.nodup_append] using h

theorem keys_nodup_unique {R : FetchResult} {s : String} {v w : Series}
    (hnd : (R.map Prod.fst).Nodup) (hv : (s, v) ∈ R) (hw : (s, w) ∈ R) : v = w := by
  induction R with
  | nil => simp at hv
  | cons q rest ih =>
      obtain ⟨k, u⟩ := q
      simp only [List.map_cons, List.nodup_cons] at hnd
      rcases List.mem_cons.mp hv with hv1 | hv1 <;> rcases List.mem_cons.mp hw with hw1 | hw1
      · cases hv1; cases hw1; rfl
      · cases hv1
        exact absurd (List.mem_map_of_mem Prod.fst hw1) hnd.1
      · cases hw1
        exact absurd (List.mem_map_of_mem Prod.fst hv1) hnd.1
      · exact ih hnd.2 hv1 hw1

theorem fetch_foldl_mem {download : String → String → String → Option (List Obs)}
    {period interval : String} :
    ∀ (l : List String) (d : FetchResult) (p : String × Series),
      p ∈ l.foldl (fetchLoopBody download period interval) d →
      p ∈ d ∨ (p.1 ∈ l ∧ ∃ data, download p.1 period interval = some data ∧
        data ≠ [] ∧ p.2 = tagSymbol p.1 data) := by
  intro l
  induction l with
  | nil =>
      intro d p h
      exact Or.inl (by simpa using h)
  | cons sym t ih =>
      intro d p h
      simp only [List.foldl_cons] at h
      rcases ih _ p h with h1 | h1
      · cases hd : download sym period interval with
        | none =>
            simp only [fetchLoopBody, hd] at h1
            exact Or.inl h1
        | some data =>
            simp only [fetchLoopBody, hd] at h1
            by_cases he : data.isEmpty
            · rw [if_pos he] at h1
              exact Or.inl h1
            · rw [if_neg he] at h1
              rcases dictInsert_mem h1 with h2 | h2
              · subst h2
                refine Or.inr ⟨List.mem_cons_self _ _, data, hd, ?_, rfl⟩
                intro hnil
                exact he (by simp [hnil])
              · exact Or.inl h2
      · exact Or.inr ⟨List.mem_cons_of_mem _ h1.1, h1.2⟩

theorem fetch_foldl_keys_nodup {download : String → String → String → Option (List Obs)}
    {period interval : String} :
    ∀ (l : List String) (d : FetchResult), (d.map Prod.fst).Nodup →
      ((l.foldl (fetchLoopBody download period interval) d).map Prod.fst).Nodup := by
  intro l
  induction l with
  | nil => intro d h; simpa using h
  | cons sym t ih =>
      intro d h
      simp only [List.foldl_cons]
      apply ih
      cases hd : download sym period interval with
      | none => simpa only [fetchLoopBody, hd] using h
      | some data =>
          simp only [fetchLoopBody, hd]
          by_cases he : data.isEmpty
          · rw [if_pos he]; exact h
          · rw [if_neg he]
            exact dictInsert_keys_nodup _ _ h

theorem fetch_foldl_preserved {download : String → String → String → Option (List Obs)}
    {period interval : String} {s : String} {data : List Obs}
    (hdl : download s period interval = some data) :
    ∀ (l : List String) (d : FetchResult), (s, tagSymbol s data) ∈ d →
      (s, tagSymbol s data) ∈ l.foldl (fetchLoopBody download period interval) d := by
  intro l
  induction l with
  | nil => intro d h; simpa using h
  | cons sym t ih =>
      intro d h
      simp only [List.foldl_cons]
      apply ih
      by_cases hs : sym = s
      · subst hs
        simp only [fetchLoopBody, hdl]
        by_cases he : data.isEmpty
        · rw [if_pos he]; exact h
        · rw [if_neg he]
          exact dictInsert_self_mem _ _ _
      · cases hd : download sym period interval with
        | none => simpa only [fetchLoopBody, hd] using h
        | some data' =>
            simp only [fetchLoopBody, hd]
            by_cases he : data'.isEmpty
            · rw [if_pos he]; exact h
            · rw [if_neg he]
              exact dictInsert_mem_of_ne h (fun hss => hs hss.symm)

theorem fetch_foldl_of_occurrence {download : String → String → String → Option (List Obs)}
    {period interval : String} {s : String} {data : List Obs}
    (hdl : download s period interval = some data) (hne : data ≠ []) :
    ∀ (l : List String) (d : FetchResult), s ∈ l →
      (s, tagSymbol s data) ∈ l.foldl (fetchLoopBody download period interval) d := by
  intro l
  induction l with
  | nil => intro d h; simp at h
  | cons sym t ih =>
      intro d h
      simp only [List.foldl_cons]
      rcases List.mem_cons.mp h with h1 | h1
      · subst h1
        apply fetch_foldl_preserved hdl
        simp only [fetchLoopBody, hdl]
        rw [if_neg (by simpa using hne)]
        exact dictInsert_self_mem _ _ _
      · exact ih _ h1

theorem fetch_foldl_skip_failure {download : String → String → String → Option (List Obs)}
    {period interval : String} {t : String}
    (hfail : download t period interval = none) :
    ∀ (l : List String) (d : FetchResult),
      l.foldl (fetchLoopBody download period interval) d =
        (l.filter (fun s => s ≠ t)).foldl (fetchLoopBody download period interval) d := by
  intro l
  induction l with
  | nil => intro d; rfl
  | cons sym u ih =>
      intro d
      by_cases hs : sym = t
      · subst hs
        have hbody : fetchLoopBody download period interval d sym = d := by
          simp only [fetchLoopBody, hfail]
        have hfilt : (sym :: u).filter (fun s => s ≠ sym) = u.filter (fun s => s ≠ sym) :=
          List.filter_cons_of_neg (by simp)
        rw [hfilt, List.foldl_cons, hbody]
        exact ih d
      · have hfilt : (sym :: u).filter (fun s => s ≠ t) = sym :: u.filter (fun s => s ≠ t) :=
          List.filter_cons_of_pos (by simpa using hs)
        rw [hfilt, List.foldl_cons, List.foldl_cons]
        exact ih _

/-! ### Helper lemmas on stripping, exports and the display step -/

theorem dropWhile_head_not {α : Type} (p : α → Bool) :
    ∀ (l : List α) (a : α) (t : List α), l.dropWhile p = a :: t → p a = false := by
  intro l
  induction l with
  | nil => intro a t h; simp [List.dropWhile] at h
  | cons b u ih =>
      intro a t h
      by_cases hb : p b
      · rw [List.dropWhile_cons_of_pos hb] at h
        exact ih a t h
      · rw [List.dropWhile_cons_of_neg hb] at h
        cases h
        simpa using hb

theorem dropWhile_eq_self_of_head {α : Type} (p : α → Bool) (l : List α)
    (h : ∀ a, l.head? = some a → p a = false) : l.dropWhile p = l := by
  cases l with
  | nil => rfl
  | cons a t =>
      have ha : p a = false := h a rfl
      exact List.dropWhile_cons_of_neg (by simp [ha])

theorem dropWhile_dropWhile {α : Type} (p : α → Bool) (l : List α) :
    (l.dropWhile p).dropWhile p = l.dropWhile p := by
  apply dropWhile_eq_self_of_head
  intro a ha
  cases hdrop : l.dropWhile p with
  | nil => rw [hdrop] at ha; simp at ha
  | cons b u =>
      rw [hdrop] at ha
      simp only [List.head?_cons, Option.some.injEq] at ha
      exact ha ▸ dropWhile_head_not p l b u hdrop

theorem getLast?_dropWhile {α : Type} (p : α → Bool) :
    ∀ (l : List α), l.dropWhile p ≠ [] → (l.dropWhile p).getLast? = l.getLast? := by
  intro l
  induction l with
  | nil => intro h; simp [List.dropWhile] at h
  | cons a t ih =>
      intro h
      by_cases ha : p a
      · rw [List.dropWhile_cons_of_pos ha] at h ⊢
        have ht : t ≠ [] := by
          intro hnil
          rw [hnil] at h
          simp [List.dropWhile] at h
        rw [ih h]
        cases t with
        | nil => exact absurd rfl ht
        | cons b u => simp [List.getLast?_cons_cons]
      · rw [List.dropWhile_cons_of_neg ha]

theorem stripChars_idem (l : List Char) : stripChars (stripChars l) = stripChars l := by
  unfold stripChars
  set p := Char.isWhitespace with hp
  set A := l.dropWhile p with hA
  set B := A.reverse.dropWhile p with hB
  by_cases hBnil : B = []
  · simp [hBnil]
  · have hBne : B ≠ [] := hBnil
    have hrev : B.reverse.dropWhile p = B.reverse := by
      apply dropWhile_eq_self_of_head
      intro a ha
      rw [List.head?_reverse] at ha
      have hlast : B.getLast? = A.head? := by
        rw [hB, getLast?_dropWhile p A.reverse (hB ▸ hBne), List.getLast?_reverse]
      rw [hlast] at ha
      cases hAd : A with
      | nil => rw [hAd] at ha; simp at ha
      | cons c v =>
          rw [hAd] at ha
          simp only [List.head?_cons, Option.some.injEq] at ha
          exact ha ▸ dropWhile_head_not p l c v (hA ▸ hAd)
    calc ((B.reverse.dropWhile p).reverse.dropWhile p).reverse
        = (B.reverse.reverse.dropWhile p).reverse := by rw [hrev]
      _ = (B.dropWhile p).reverse := by rw [List.reverse_reverse]
      _ = B.reverse := by rw [hB, dropWhile_dropWhile]

theorem pyStrip_idem (s : String) : pyStrip (pyStrip s) = pyStrip s :=
  congrArg String.mk (stripChars_idem s.data)

theorem export_summary_state (st : AppState) (file_path : Option String) :
    (export_summary_to_csv st file_path).2 = st := by
  unfold export_summary_to_csv
  cases st.latest_summary_df with
  | none => rfl
  | some df =>
      by_cases he : df.isEmpty
      · simp [he]
      · cases file_path with
        | none => simp [he]
        | some fp => simp [he]

theorem export_full_state (st : AppState) (file_path : Option String) :
    (export_full_data_to_csv st file_path).2 = st := by
  unfold export_full_data_to_csv
  cases st.latest_combined_data with
  | none => rfl
  | some R =>
      cases file_path with
      | none => rfl
      | some fp => rfl

theorem display_spec (download : String → String → String → Option (List Obs))
    (raw period interval : String) (st : AppState) :
    (parseSymbols raw = [] →
      display_crypto_data download raw period interval st = (st, Msg.inputError, none)) ∧
    (parseSymbols raw ≠ [] →
     fetch_crypto_data download (parseSymbols raw) period interval = [] →
      display_crypto_data download raw period interval st =
        (st, Msg.fetchError, some (parseSymbols raw))) ∧
    (parseSymbols raw ≠ [] →
     fetch_crypto_data download (parseSymbols raw) period interval ≠ [] →
     summaryRows (fetch_crypto_data download (parseSymbols raw) period interval) = [] →
      display_crypto_data download raw period interval st =
        ({ st with latest_combined_data := some (fetch_crypto_data download (parseSymbols raw) period interval) },
         Msg.noSummary, some (parseSymbols raw))) ∧
    (parseSymbols raw ≠ [] →
     fetch_crypto_data download (parseSymbols raw) period interval ≠ [] →
     summaryRows (fetch_crypto_data download (parseSymbols raw) period interval) ≠ [] →
      display_crypto_data download raw period interval st =
        ({ latest_summary_df := some (summaryRows (fetch_crypto_data download (parseSymbols raw) period interval)),
           latest_combined_data := some (fetch_crypto_data download (parseSymbols raw) period interval) },
         Msg.ok, some (parseSymbols raw))) := by
  refine ⟨?_, ?_, ?_, ?_⟩
  · intro h
    unfold display_crypto_data
    rw [if_pos (by simp [h])]
  · intro h hR
    unfold display_crypto_data
    rw [if_neg (by simp [h]), if_pos (by simp [hR])]
  · intro h hR hs
    unfold display_crypto_data
    rw [if_neg (by simp [h]), if_neg (by simp [hR]), if_pos (by simp [hs])]
  · intro h hR hs
    unfold display_crypto_data
    rw [if_neg (by simp [h]), if_neg (by simp [hR]), if_neg (by simp [hs])]

theorem fmt2pct_zero : fmt2pct 0 = "0.00%" := by
  with_unfolding_all decide

theorem summaryRow?_some_iff {sym : String} {data : Series} {row : SummaryRow} :
    summaryRow? sym data = some row ↔
      data ≠ [] ∧ firstClose data ≠ 0 ∧
      row = { symbol := sym, startPrice := pyRound2 (firstClose data),
              endPrice := pyRound2 (lastClose data), pctStr := fmt2pct (pctChange data) } := by
  unfold summaryRow?
  by_cases he : data.isEmpty
  · have : data = [] := by simpa using he
    simp [he, this]
  · have hne : data ≠ [] := by simpa using he
    by_cases h0 : firstClose data = 0
    · simp [he, h0]
    · simp [he, h0, hne, eq_comm]

/-! ### Claims -/

/-- C1: `summarize(R)` produces a row for symbol `s` iff `s` is bound in `R`
to a non-empty series whose first closing price is non-zero; every produced
row carries the start and end price rounded to two decimals for display and
the percent change `(last - first) / first * 100` computed exactly and only
then formatted, with no rounding entering the zero-start comparison or the
percent computation itself. -/
theorem summarize_iff_and_exact (R : FetchResult) (s : String) :
    ((∃ row ∈ summaryRows R, row.symbol = s) ↔
      ∃ v, (s, v) ∈ R ∧ v ≠ [] ∧ firstClose v ≠ 0) ∧
    (∀ row ∈ summaryRows R, ∃ v, (row.symbol, v) ∈ R ∧ v ≠ [] ∧ firstClose v ≠ 0 ∧
      row.startPrice = pyRound2 (firstClose v) ∧
      row.endPrice = pyRound2 (lastClose v) ∧
      row.pctStr = fmt2pct ((lastClose v - firstClose v) / firstClose v * 100)) := by
  constructor
  · constructor
    · rintro ⟨row, hrow, rfl⟩
      rw [summaryRows, List.mem_filterMap] at hrow
      obtain ⟨p, hpR, hp⟩ := hrow
      obtain ⟨hne, h0, hrw⟩ := summaryRow?_some_iff.mp hp
      refine ⟨p.2, ?_, hne, h0⟩
      have : row.symbol = p.1 := by rw [hrw]
      rw [this]
      exact hpR
    · rintro ⟨v, hvR, hne, h0⟩
      refine ⟨{ symbol := s, startPrice := pyRound2 (firstClose v),
                endPrice := pyRound2 (lastClose v), pctStr := fmt2pct (pctChange v) }, ?_, rfl⟩
      rw [summaryRows, List.mem_filterMap]
      exact ⟨(s, v), hvR, summaryRow?_some_iff.mpr ⟨hne, h0, rfl⟩⟩
  · intro row hrow
    rw [summaryRows, List.mem_filterMap] at hrow
    obtain ⟨p, hpR, hp⟩ := hrow
    obtain ⟨hne, h0, hrw⟩ := summaryRow?_some_iff.mp hp
    refine ⟨p.2, ?_, hne, h0, ?_, ?_, ?_⟩
    · have : row.symbol = p.1 := by rw [hrw]
      rw [this]
      exact hpR
    · rw [hrw]
    · rw [hrw]
    · rw [hrw]
      show fmt2pct (pctChange p.2) = _
      rw [pctChange]

/-- Witness for C1 at a concrete fetch result. -/
theorem summarize_iff_and_exact_witness :
    ∃ row ∈ summaryRows [("AAA", tagSymbol "AAA"
      [{ ts := 0, close := 10 }, { ts := 1, close := 12 }, { ts := 2, close := 15 }])],
      row.symbol = "AAA" :=
  (summarize_iff_and_exact _ "AAA").1.mpr
    ⟨tagSymbol "AAA" [{ ts := 0, close := 10 }, { ts := 1, close := 12 }, { ts := 2, close := 15 }],
     by with_unfolding_all decide, by with_unfolding_all decide, by with_unfolding_all decide⟩

/-- C2: the fetch result only binds requested symbols, every bound series is
non-empty, and the result can be the empty mapping (here: whenever every
download raises). -/
theorem fetch_subset_and_nonempty (download : String → String → String → Option (List Obs))
    (symbols : List String) (period interval : String) :
    (∀ p ∈ fetch_crypto_data download symbols period interval, p.1 ∈ symbols ∧ p.2 ≠ []) ∧
    fetch_crypto_data (fun _ _ _ => none) symbols period interval = [] := by
  constructor
  · intro p hp
    rcases fetch_foldl_mem symbols [] p hp with h | h
    · simp at h
    · obtain ⟨hmem, data, hdl, hne, hp2⟩ := h
      refine ⟨hmem, ?_⟩
      rw [hp2]
      simpa [tagSymbol] using hne
  · have hnone : ∀ (l : List String) (d : FetchResult),
        l.foldl (fetchLoopBody (fun _ _ _ => none) period interval) d = d := by
      intro l
      induction l with
      | nil => intro d; rfl
      | cons sym t ih =>
          intro d
          simp only [List.foldl_cons, fetchLoopBody]
          exact ih d
    exact hnone symbols []

/-- Witness for C2 at a concrete fetch result. -/
theorem fetch_subset_and_nonempty_witness :
    ("AAA" ∈ ["AAA", "BBB"]) ∧
    (tagSymbol "AAA" [{ ts := 0, close := 10 }, { ts := 1, close := 12 }, { ts := 2, close := 15 }]
      ≠ ([] : Series)) :=
  (fetch_subset_and_nonempty oracleA ["AAA", "BBB"] "1mo" "1d").1
    ("AAA", tagSymbol "AAA" [{ ts := 0, close := 10 }, { ts := 1, close := 12 }, { ts := 2, close := 15 }])
    (by with_unfolding_all decide)

/-- C3 counterexample: after a first fetch of `"AAA"` (closes 10,12,15) and a
second fetch of `"ZZZ"` (closes 0,5 — data, but no summarizable row), the
stored combined snapshot comes from the second fetch while the stored summary
table is still the first fetch's non-empty table: the two holders derive from
different fetch invocations. -/
theorem fetch_snapshot_not_atomic :
    ((display_crypto_data oracleZ "ZZZ" "1mo" "1d"
        (display_crypto_data oracleA "AAA" "1mo" "1d"
          { latest_summary_df := none, latest_combined_data := none }).1).1.latest_combined_data =
      some [("ZZZ", tagSymbol "ZZZ" [{ ts := 0, close := 0 }, { ts := 1, close := 5 }])]) ∧
    summaryRows [("ZZZ", tagSymbol "ZZZ" [{ ts := 0, close := 0 }, { ts := 1, close := 5 }])] = [] ∧
    ((display_crypto_data oracleZ "ZZZ" "1mo" "1d"
        (display_crypto_data oracleA "AAA" "1mo" "1d"
          { latest_summary_df := none, latest_combined_data := none }).1).1.latest_summary_df =
      (display_crypto_data oracleA "AAA" "1mo" "1d"
          { latest_summary_df := none, latest_combined_data := none }).1.latest_summary_df) ∧
    ((display_crypto_data oracleZ "ZZZ" "1mo" "1d"
        (display_crypto_data oracleA "AAA" "1mo" "1d"
          { latest_summary_df := none, latest_combined_data := none }).1).1.latest_summary_df ≠
      some (summaryRows [("ZZZ", tagSymbol "ZZZ" [{ ts := 0, close := 0 }, { ts := 1, close := 5 }])])) ∧
    ((display_crypto_data oracleZ "ZZZ" "1mo" "1d"
        (display_crypto_data oracleA "AAA" "1mo" "1d"
          { latest_summary_df := none, latest_combined_data := none }).1).1.latest_summary_df ≠ none) := by
  with_unfolding_all decide

/-- C3 amended: the two holders are replaced together only when the new fetch
yields at least one summary row.  A rejected input or an empty fetch leaves
both holders unchanged; a fetch that returns data whose summary is empty
replaces only the combined holder and leaves the summary holder at the
previous fetch's table. -/
theorem fetch_snapshot_update (download : String → String → String → Option (List Obs))
    (raw period interval : String) (st : AppState) :
    (parseSymbols raw = [] → (display_crypto_data download raw period interval st).1 = st) ∧
    (fetch_crypto_data download (parseSymbols raw) period interval = [] →
      (display_crypto_data download raw period interval st).1 = st) ∧
    (parseSymbols raw ≠ [] →
     fetch_crypto_data download (parseSymbols raw) period interval ≠ [] →
     summaryRows (fetch_crypto_data download (parseSymbols raw) period interval) = [] →
      (display_crypto_data download raw period interval st).1.latest_combined_data =
        some (fetch_crypto_data download (parseSymbols raw) period interval) ∧
      (display_crypto_data download raw period interval st).1.latest_summary_df =
        st.latest_summary_df) ∧
    (parseSymbols raw ≠ [] →
     fetch_crypto_data download (parseSymbols raw) period interval ≠ [] →
     summaryRows (fetch_crypto_data download (parseSymbols raw) period interval) ≠ [] →
      (display_crypto_data download raw period interval st).1.latest_combined_data =
        some (fetch_crypto_data download (parseSymbols raw) period interval) ∧
      (display_crypto_data download raw period interval st).1.latest_summary_df =
        some (summaryRows (fetch_crypto_data download (parseSymbols raw) period interval))) := by
  obtain ⟨h1, h2, h3, h4⟩ := display_spec download raw period interval st
  refine ⟨fun hp => by rw [h1 hp], ?_, ?_, ?_⟩
  · intro hR
    by_cases hp : parseSymbols raw = []
    · rw [h1 hp]
    · rw [h2 hp hR]
  · intro hp hR hs
    rw [h3 hp hR hs]
    exact ⟨rfl, rfl⟩
  · intro hp hR hs
    rw [h4 hp hR hs]
    exact ⟨rfl, rfl⟩

/-- Witness for the amended C3: the concrete stale-summary run. -/
theorem fetch_snapshot_update_witness :
    ((display_crypto_data oracleZ "ZZZ" "1mo" "1d"
        (display_crypto_data oracleA "AAA" "1mo" "1d"
          { latest_summary_df := none, latest_combined_data := none }).1).1.latest_combined_data =
      some (fetch_crypto_data oracleZ (parseSymbols "ZZZ") "1mo" "1d")) ∧
    ((display_crypto_data oracleZ "ZZZ" "1mo" "1d"
        (display_crypto_data oracleA "AAA" "1mo" "1d"
          { latest_summary_df := none, latest_combined_data := none }).1).1.latest_summary_df =
      (display_crypto_data oracleA "AAA" "1mo" "1d"
          { latest_summary_df := none, latest_combined_data := none }).1.latest_summary_df) :=
  (fetch_snapshot_update oracleZ "ZZZ" "1mo" "1d" _).2.2.1
    (by with_unfolding_all decide) (by with_unfolding_all decide) (by with_unfolding_all decide)

/-- C4 counterexample: with the same symbol requested twice, the fetch result
is identical to requesting it once — one dict entry, not one entry per
occurrence. -/
theorem duplicate_symbols_collapse :
    fetch_crypto_data oracleA ["AAA", "AAA"] "1mo" "1d" =
      fetch_crypto_data oracleA ["AAA"] "1mo" "1d" ∧
    (fetch_crypto_data oracleA ["AAA", "AAA"] "1mo" "1d").length = 1 := by
  with_unfolding_all decide

/-- C4 amended: every occurrence of a symbol is independently fetched (each
loop iteration calls the source), but occurrences of the same symbol collapse
into one dict entry: the result's keys are duplicate-free, and each occurrence
that succeeds with data installs that symbol's (single) entry. -/
theorem duplicate_symbols_collapsed_reporting
    (download : String → String → String → Option (List Obs))
    (symbols : List String) (period interval : String) :
    ((fetch_crypto_data download symbols period interval).map Prod.fst).Nodup ∧
    (∀ s ∈ symbols, ∀ data, download s period interval = some data → data ≠ [] →
      (s, tagSymbol s data) ∈ fetch_crypto_data download symbols period interval) := by
  constructor
  · exact fetch_foldl_keys_nodup symbols [] (by simp)
  · intro s hs data hdl hne
    exact fetch_foldl_of_occurrence hdl hne symbols [] hs

/-- Witness for the amended C4 on the duplicated request. -/
theorem duplicate_symbols_collapsed_reporting_witness :
    ("AAA", tagSymbol "AAA"
      [{ ts := 0, close := 10 }, { ts := 1, close := 12 }, { ts := 2, close := 15 }]) ∈
      fetch_crypto_data oracleA ["AAA", "AAA"] "1mo" "1d" :=
  (duplicate_symbols_collapsed_reporting oracleA ["AAA", "AAA"] "1mo" "1d").2 "AAA"
    (by with_unfolding_all decide) _ (by with_unfolding_all decide) (by with_unfolding_all decide)

/-- C5: a series bound in the fetch result with first closing price 0
contributes no summary row for its symbol, yet every one of its rows still
appears in the combined (full-history) output — `combine` has no
zero-start-price guard. -/
theorem zero_start_excluded_but_combined (R : FetchResult) (s : String) (v : Series)
    (hmem : (s, v) ∈ R) (hnd : (R.map Prod.fst).Nodup) (h0 : firstClose v = 0) :
    (∀ row ∈ summaryRows R, row.symbol ≠ s) ∧ (∀ r ∈ v, r ∈ combine R) := by
  constructor
  · intro row hrow hsym
    rw [summaryRows, List.mem_filterMap] at hrow
    obtain ⟨p, hpR, hp⟩ := hrow
    obtain ⟨hne, hz, hrw⟩ := summaryRow?_some_iff.mp hp
    have hps : p.1 = s := by
      have : row.symbol = p.1 := by rw [hrw]
      rw [← this, hsym]
    have hpR' : (s, p.2) ∈ R := by
      rw [← hps]
      exact hpR
    have : p.2 = v := keys_nodup_unique hnd hpR' hmem
    rw [this] at hz
    exact hz h0
  · intro r hr
    rw [combine, List.mem_flatten]
    exact ⟨v, List.mem_map_of_mem Prod.snd hmem, hr⟩

/-- Witness for C5 on the zero-start series of `"ZZZ"`. -/
theorem zero_start_excluded_but_combined_witness :
    (∀ row ∈ summaryRows [("ZZZ", tagSymbol "ZZZ" [{ ts := 0, close := 0 }, { ts := 1, close := 5 }])],
      row.symbol ≠ "ZZZ") ∧
    (∀ r ∈ tagSymbol "ZZZ" [{ ts := 0, close := 0 }, { ts := 1, close := 5 }],
      r ∈ combine [("ZZZ", tagSymbol "ZZZ" [{ ts := 0, close := 0 }, { ts := 1, close := 5 }])]) :=
  zero_start_excluded_but_combined _ "ZZZ" _
    (by with_unfolding_all decide) (by with_unfolding_all decide) (by with_unfolding_all decide)

/-- C6: a series of length exactly 1 (with the non-zero start price needed for
a row to exist at all) yields a summary row whose start and end prices agree,
whose exact percent change is 0, and whose formatted change is `"0.00%"`. -/
theorem single_obs_zero_change (R : FetchResult) (s : String) (v : Series)
    (hmem : (s, v) ∈ R) (hlen : v.length = 1) (h0 : firstClose v ≠ 0) :
    pctChange v = 0 ∧
    ∃ row ∈ summaryRows R, row.symbol = s ∧ row.startPrice = row.endPrice ∧
      row.startPrice = pyRound2 (firstClose v) ∧ row.pctStr = "0.00%" := by
  obtain ⟨r, rfl⟩ := List.length_eq_one.mp hlen
  have hfl : firstClose [r] = r.close := rfl
  have hll : lastClose [r] = r.close := rfl
  have hpct : pctChange [r] = 0 := by
    unfold pctChange
    rw [hfl, hll, sub_self, zero_div, zero_mul]
  refine ⟨hpct, ?_⟩
  refine ⟨{ symbol := s, startPrice := pyRound2 (firstClose [r]),
            endPrice := pyRound2 (lastClose [r]), pctStr := fmt2pct (pctChange [r]) },
          ?_, rfl, ?_, rfl, ?_⟩
  · rw [summaryRows, List.mem_filterMap]
    exact ⟨(s, [r]), hmem, summaryRow?_some_iff.mpr ⟨by simp, h0, rfl⟩⟩
  · show pyRound2 (firstClose [r]) = pyRound2 (lastClose [r])
    rw [hfl, hll]
  · show fmt2pct (pctChange [r]) = "0.00%"
    rw [hpct]
    exact fmt2pct_zero

/-- Witness for C6 on a one-observation series. -/
theorem single_obs_zero_change_witness :
    pctChange (tagSymbol "ONE" [{ ts := 0, close := 7 }]) = 0 ∧
    ∃ row ∈ summaryRows [("ONE", tagSymbol "ONE" [{ ts := 0, close := 7 }])],
      row.symbol = "ONE" ∧ row.startPrice = row.endPrice ∧
      row.startPrice = pyRound2 (firstClose (tagSymbol "ONE" [{ ts := 0, close := 7 }])) ∧
      row.pctStr = "0.00%" :=
  single_obs_zero_change _ "ONE" _
    (by with_unfolding_all decide) (by with_unfolding_all decide) (by with_unfolding_all decide)

/-- C7: a symbol whose download raises is the only one affected — the whole
batch result equals the result of fetching the remaining symbols, and the
failed symbol is absent from the result; the fetch itself always returns a
mapping (the loop body swallows the exception), never a hard failure. -/
theorem per_symbol_failure_isolated (download : String → String → String → Option (List Obs))
    (symbols : List String) (t : String) (period interval : String)
    (hfail : download t period interval = none) :
    fetch_crypto_data download symbols period interval =
      fetch_crypto_data download (symbols.filter (fun s => s ≠ t)) period interval ∧
    ∀ p ∈ fetch_crypto_data download symbols period interval, p.1 ≠ t := by
  constructor
  · exact fetch_foldl_skip_failure hfail symbols []
  · intro p hp hpt
    rcases fetch_foldl_mem symbols [] p hp with h | h
    · simp at h
    · obtain ⟨_, data, hdl, _, _⟩ := h
      rw [hpt, hfail] at hdl
      exact Option.noConfusion hdl

/-- Witness for C7: `"BBB"` raises under `oracleAB` while `"AAA"` succeeds. -/
theorem per_symbol_failure_isolated_witness :
    (fetch_crypto_data oracleAB ["AAA", "BBB"] "1mo" "1d" =
      fetch_crypto_data oracleAB (["AAA", "BBB"].filter (fun s => s ≠ "BBB")) "1mo" "1d") ∧
    (∀ p ∈ fetch_crypto_data oracleAB ["AAA", "BBB"] "1mo" "1d", p.1 ≠ "BBB") :=
  per_symbol_failure_isolated oracleAB ["AAA", "BBB"] "BBB" "1mo" "1d"
    (by with_unfolding_all decide)

/-- C8: the entered text is split on commas, every piece stripped of
surrounding whitespace, empty pieces discarded; blank input is rejected with
a message before the fetcher runs, and otherwise the fetcher receives exactly
the parsed pieces. -/
theorem symbol_parsing_and_guard (download : String → String → String → Option (List Obs))
    (raw period interval : String) (st : AppState) :
    (∀ s ∈ parseSymbols raw, s ≠ "" ∧ pyStrip s = s) ∧
    (parseSymbols raw = [] →
      display_crypto_data download raw period interval st = (st, Msg.inputError, none)) ∧
    (parseSymbols raw ≠ [] →
      (display_crypto_data download raw period interval st).2.2 = some (parseSymbols raw)) := by
  obtain ⟨h1, h2, h3, h4⟩ := display_spec download raw period interval st
  refine ⟨?_, h1, ?_⟩
  · intro s hs
    rw [parseSymbols, List.mem_filter] at hs
    obtain ⟨hmap, hne⟩ := hs
    refine ⟨by simpa using hne, ?_⟩
    rw [List.mem_map] at hmap
    obtain ⟨s0, _, rfl⟩ := hmap
    exact pyStrip_idem s0
  · intro hp
    by_cases hR : fetch_crypto_data download (parseSymbols raw) period interval = []
    · rw [h2 hp hR]
    · by_cases hs : summaryRows (fetch_crypto_data download (parseSymbols raw) period interval) = []
      · rw [h3 hp hR hs]
      · rw [h4 hp hR hs]

/-- Witness for C8 on a messy concrete entry string. -/
theorem symbol_parsing_and_guard_witness :
    (display_crypto_data (fun _ _ _ => none) " BTC-USD, ETH-USD ,, " "1mo" "1d"
      { latest_summary_df := none, latest_combined_data := none }).2.2 =
      some ["BTC-USD", "ETH-USD"] :=
  Eq.trans
    ((symbol_parsing_and_guard (fun _ _ _ => none) " BTC-USD, ETH-USD ,, " "1mo" "1d"
        { latest_summary_df := none, latest_combined_data := none }).2.2
      (by with_unfolding_all decide))
    (by with_unfolding_all decide)

/-- C9: both exports leave the snapshot state exactly as it was (the
concatenation and index materialization operate on a fresh frame), so
repeating an export, in any order with the other export, reads the same
snapshot and produces the same output. -/
theorem exports_read_only_idempotent (st : AppState) (p1 p2 : Option String) :
    (export_summary_to_csv st p1).2 = st ∧
    (export_full_data_to_csv st p1).2 = st ∧
    (export_summary_to_csv (export_summary_to_csv st p1).2 p2).1 =
      (export_summary_to_csv st p2).1 ∧
    (export_full_data_to_csv (export_full_data_to_csv st p1).2 p2).1 =
      (export_full_data_to_csv st p2).1 ∧
    (export_full_data_to_csv (export_summary_to_csv st p1).2 p2).1 =
      (export_full_data_to_csv st p2).1 ∧
    (export_summary_to_csv (export_full_data_to_csv st p1).2 p2).1 =
      (export_summary_to_csv st p2).1 := by
  refine ⟨export_summary_state st p1, export_full_state st p1, ?_, ?_, ?_, ?_⟩
  · rw [export_summary_state st p1]
  · rw [export_full_state st p1]
  · rw [export_summary_state st p1]
  · rw [export_full_state st p1]

/-- C10: in every reachable state, a stored combined snapshot is a non-empty
mapping (an empty fetch never overwrites the holder), so the full-history
export — whose guard only tests for `None` — never concatenates an empty
collection of frames. -/
theorem combined_snapshot_never_empty (st : AppState) (h : Reachable st) :
    ∀ R, st.latest_combined_data = some R → R ≠ [] ∧ R.map Prod.snd ≠ [] := by
  induction h with
  | init =>
      intro R hR
      exact Option.noConfusion hR
  | fetchStep download raw period interval hr ih =>
      intro R hR
      obtain ⟨h1, h2, h3, h4⟩ := display_spec download raw period interval _
      by_cases hp : parseSymbols raw = []
      · rw [h1 hp] at hR
        exact ih R hR
      · by_cases hfe : fetch_crypto_data download (parseSymbols raw) period interval = []
        · rw [h2 hp hfe] at hR
          exact ih R hR
        · by_cases hs : summaryRows (fetch_crypto_data download (parseSymbols raw) period interval) = []
          · rw [h3 hp hfe hs] at hR
            simp only [Option.some.injEq] at hR
            subst hR
            exact ⟨hfe, by simpa using hfe⟩
          · rw [h4 hp hfe hs] at hR
            simp only [Option.some.injEq] at hR
            subst hR
            exact ⟨hfe, by simpa using hfe⟩
  | exportSummaryStep fp hr ih =>
      intro R hR
      rw [export_summary_state] at hR
      exact ih R hR
  | exportFullStep fp hr ih =>
      intro R hR
      rw [export_full_state] at hR
      exact ih R hR

/-- Witness for C10 on the state reached by one successful fetch. -/
theorem combined_snapshot_never_empty_witness :
    ([("AAA", tagSymbol "AAA"
        [{ ts := 0, close := 10 }, { ts := 1, close := 12 }, { ts := 2, close := 15 }])] :
      FetchResult) ≠ [] ∧
    (([("AAA", tagSymbol "AAA"
        [{ ts := 0, close := 10 }, { ts := 1, close := 12 }, { ts := 2, close := 15 }])] :
      FetchResult).map Prod.snd) ≠ [] :=
  combined_snapshot_never_empty _
    (Reachable.fetchStep oracleA "AAA" "1mo" "1d" Reachable.init) _
    (by with_unfolding_all decide)
